import Mathlib

/-!
Verification development for the everscale-inpage-provider client adapter
(src/index.ts and src/models.ts): a shallow embedding of the transaction
merge utility, the subscription fold engine, the provider subscription
manager's subscribe path, and the ABI token codec, together with theorems
settling the specification claims.

Modelling conventions, used throughout:
* JavaScript strings are Lean `String`; the string methods the source uses
  (`startsWith`, `endsWith`, `slice`, `split(',')`, `localeCompare`) are
  re-implemented below over the character list, because the corresponding
  built-in `String` functions do not reduce inside the kernel.
  `localeCompare` is modelled as code-point lexicographic comparison, which
  agrees with the default collator on the decimal digit strings used as
  logical times.
* JavaScript objects with string keys are association lists in insertion
  order (assignment to an existing key keeps its position); objects with
  integer keys are association lists kept sorted ascending by key, matching
  the enumeration order JavaScript guarantees for integer-like keys.
* The recursive codec walk is given an explicit fuel argument so that every
  definition stays structurally recursive and executable; fuel exhaustion
  returns the distinguished error `outOfFuel`, which the source can never
  produce, and theorems treat it separately.
-/

/-! ## JavaScript string primitives, re-implemented over character lists -/

/-- Is the first list a prefix of the second, comparing code points. -/
def isPrefixChars : List Char → List Char → Bool
  | [], _ => true
  | _ :: _, [] => false
  | a :: as, b :: bs => a.toNat = b.toNat && isPrefixChars as bs

/-- JavaScript `s.startsWith(pre)`. -/
def jsStartsWith (s pre : String) : Bool := isPrefixChars pre.data s.data

/-- JavaScript `s.endsWith(suf)`. -/
def jsEndsWith (s suf : String) : Bool := isPrefixChars suf.data.reverse s.data.reverse

/-- JavaScript `s.slice(n)` for a non-negative index. -/
def jsDrop (s : String) (n : Nat) : String := ⟨s.data.drop n⟩

/-- JavaScript `s.slice(0, -n)` for a positive count from the end. -/
def jsDropRight (s : String) (n : Nat) : String := ⟨s.data.take (s.data.length - n)⟩

/-- Code-point lexicographic strict comparison on character lists. -/
def lexLtChars : List Char → List Char → Bool
  | [], [] => false
  | [], _ :: _ => true
  | _ :: _, [] => false
  | a :: as, b :: bs =>
    if a.toNat < b.toNat then true
    else if b.toNat < a.toNat then false
    else lexLtChars as bs

/-- JavaScript `a.localeCompare(b) < 0`, modelled as code-point lexicographic
order (exact for the digit strings used as logical times). -/
def strLt (a b : String) : Bool := lexLtChars a.data b.data

/-- Helper for `jsSplitComma`: accumulates the current segment reversed. -/
def splitOnCommaAux : List Char → List Char → List String
  | [], acc => [⟨acc.reverse⟩]
  | c :: cs, acc =>
    if c.toNat = 44 then ⟨acc.reverse⟩ :: splitOnCommaAux cs []
    else splitOnCommaAux cs (c :: acc)

/-- JavaScript `s.split(',')`. -/
def jsSplitComma (s : String) : List String := splitOnCommaAux s.data []

/-! ## Data model from src/models.ts -/

/-- Modelled from the spec: the `Address` class of utils.ts (not among the
staged sources) is an immutable wrapper around a canonical string; its
`toString()` returns that string unchanged and equality is string equality. -/
structure Address where
  address : String
deriving DecidableEq, Repr

inductive AccountStatus where
  | uninit
  | frozen
  | active
  | nonexist
deriving DecidableEq, Repr

structure Message where
  src : Option Address
  dst : Option Address
  value : String
  bounce : Bool
  bounced : Bool
  body : Option String
  bodyHash : Option String
deriving DecidableEq, Repr

structure TransactionId where
  lt : String
  hash : String
deriving DecidableEq, Repr

structure Transaction where
  id : TransactionId
  prevTransactionId : Option TransactionId
  createdAt : Nat
  aborted : Bool
  origStatus : AccountStatus
  endStatus : AccountStatus
  totalFees : String
  inMessage : Message
  outMessages : List Message
deriving DecidableEq, Repr

inductive TransactionsBatchType where
  | old
  | new
deriving DecidableEq, Repr

structure TransactionsBatchInfo where
  minLt : String
  maxLt : String
  batchType : TransactionsBatchType
deriving DecidableEq, Repr

/-- `ContractUpdatesSubscription` from src/models.ts: which notification
kinds one listener wants for one address. -/
structure ContractUpdatesSubscription where
  state : Bool
  transactions : Bool
deriving DecidableEq, Repr

/-! ## mergeTransactions (src/index.ts lines 88-120)

The source mutates and returns `knownTransactions`; the embedding returns
the final array value. The `while` loop advances an index over the prefix
of known transactions whose `id.lt.localeCompare(info.maxLt) >= 0`, i.e.
whose logical time is not lexicographically below `info.maxLt`, and the
batch is spliced in at the first index failing that test. -/

def mergeTransactions (knownTransactions newTransactions : List Transaction)
    (info : TransactionsBatchInfo) : List Transaction :=
  if info.batchType = .old then
    knownTransactions ++ newTransactions
  else if knownTransactions.length = 0 then
    knownTransactions ++ newTransactions
  else
    let i := (knownTransactions.takeWhile (fun t => !strLt t.id.lt info.maxLt)).length
    knownTransactions.take i ++ newTransactions ++ knownTransactions.drop i

/-- Known transaction lists are sorted by strictly descending logical time,
compared as strings. -/
def sortedDescByLt : List Transaction → Bool
  | [] => true
  | [_] => true
  | a :: b :: rest => strLt b.id.lt a.id.lt && sortedDescByLt (b :: rest)

theorem takeWhile_length_le {α : Type} (p : α → Bool) (l : List α) :
    (l.takeWhile p).length ≤ l.length := by
  induction l with
  | nil => simp
  | cons a rest ih =>
    by_cases h : p a = true
    · simp only [List.takeWhile_cons, h, if_true, List.length_cons]
      omega
    · simp [List.takeWhile_cons, h]

theorem take_length_takeWhile {α : Type} (p : α → Bool) (l : List α) :
    l.take (l.takeWhile p).length = l.takeWhile p := by
  induction l with
  | nil => rfl
  | cons a rest ih =>
    by_cases h : p a = true
    · simp [List.takeWhile_cons, h, List.take_succ_cons, ih]
    · simp [List.takeWhile_cons, h]

theorem drop_length_takeWhile {α : Type} (p : α → Bool) (l : List α) :
    l.drop (l.takeWhile p).length = l.dropWhile p := by
  induction l with
  | nil => rfl
  | cons a rest ih =>
    by_cases h : p a = true
    · simp [List.takeWhile_cons, h, List.dropWhile_cons, ih]
    · simp [List.takeWhile_cons, h, List.dropWhile_cons]

theorem mem_takeWhile_pred {α : Type} (p : α → Bool) (l : List α) :
    ∀ x ∈ l.takeWhile p, p x = true := by
  induction l with
  | nil => simp
  | cons a rest ih =>
    by_cases h : p a = true
    · simp only [List.takeWhile_cons, h, if_true, List.mem_cons]
      rintro x (rfl | hx)
      · exact h
      · exact ih x hx
    · simp [List.takeWhile_cons, h]

theorem head_dropWhile_pred {α : Type} (p : α → Bool) (l : List α) :
    ∀ x, (l.dropWhile p).head? = some x → p x = false := by
  induction l with
  | nil => simp
  | cons a rest ih =>
    by_cases h : p a = true
    · simpa [List.dropWhile_cons, h] using ih
    · intro x hx
      simp [List.dropWhile_cons, h] at hx
      subst hx
      simpa using h

/-- C2: for a non-empty known list sorted by strictly descending logical
time and a batch marked 'new', mergeTransactions scans the known list from
the front while each transaction's lt is lexicographically at least
info.maxLt, stops at the first index failing that test, and splices the
incoming batch in at that index, shifting the rest right, without
reordering or deduplication. -/
theorem mergeTransactions_new_batch_splice
    (known incoming : List Transaction) (info : TransactionsBatchInfo)
    (hne : known ≠ []) (_hsorted : sortedDescByLt known = true)
    (hbt : info.batchType = .new) :
    ∃ i, i ≤ known.length ∧
      (∀ t ∈ known.take i, strLt t.id.lt info.maxLt = false) ∧
      (∀ t, (known.drop i).head? = some t → strLt t.id.lt info.maxLt = true) ∧
      mergeTransactions known incoming info =
        known.take i ++ incoming ++ known.drop i := by
  refine ⟨(known.takeWhile (fun t => !strLt t.id.lt info.maxLt)).length, ?_, ?_, ?_, ?_⟩
  · exact takeWhile_length_le _ known
  · intro t ht
    rw [take_length_takeWhile] at ht
    have := mem_takeWhile_pred _ known t ht
    simpa using this
  · intro t ht
    rw [drop_length_takeWhile] at ht
    have := head_dropWhile_pred _ known t ht
    simpa using this
  · have hlen : ¬ known.length = 0 := by
      simpa [List.length_eq_zero] using hne
    simp only [mergeTransactions, hbt]
    simp [hlen]

/-- A transaction carrying only a logical time, for concrete examples. -/
def txWithLt (lt : String) : Transaction :=
  ⟨⟨lt, ""⟩, none, 0, false, .active, .active, "0",
    ⟨none, none, "0", false, false, none, none⟩, []⟩

/-- Concrete known history for the C2 witness. -/
def mergeKnownExample : List Transaction := [txWithLt "5", txWithLt "3"]

/-- Concrete incoming batch for the C2 witness. -/
def mergeIncomingExample : List Transaction := [txWithLt "4"]

/-- Concrete batch info for the C2 witness. -/
def mergeInfoExample : TransactionsBatchInfo := ⟨"4", "4", .new⟩

/-- Witness for C2 at a concrete input. -/
theorem mergeTransactions_new_batch_splice_witness :
    ∃ i, i ≤ mergeKnownExample.length ∧
      (∀ t ∈ mergeKnownExample.take i, strLt t.id.lt mergeInfoExample.maxLt = false) ∧
      (∀ t, (mergeKnownExample.drop i).head? = some t →
        strLt t.id.lt mergeInfoExample.maxLt = true) ∧
      mergeTransactions mergeKnownExample mergeIncomingExample mergeInfoExample =
        mergeKnownExample.take i ++ mergeIncomingExample ++ mergeKnownExample.drop i :=
  mergeTransactions_new_batch_splice mergeKnownExample mergeIncomingExample
    mergeInfoExample (by decide) (by decide) (by decide)

/-- C3 counterexample: on the spec's concrete example the merge does not
produce the order the claim states, because under the source's string
comparison "5" is not below "11", so the scan never stops before the end. -/
theorem mergeTransactions_spec_example_refuted :
    (mergeTransactions
        [txWithLt "20", txWithLt "19", txWithLt "18", txWithLt "5"]
        [txWithLt "11", txWithLt "10"]
        ⟨"10", "11", .new⟩).map (fun t => t.id.lt) ≠
      ["20", "19", "18", "11", "10", "5"] := by decide

/-- C3 as amended: with known lts ["20","19","18","5"], incoming
["11","10"] and a 'new' batch with maxLt "11", every known lt compares
lexicographically at least "11" (in particular "5" ≥ "11" since the
character 5 exceeds 1), so the scan runs to the end and the batch is
appended, producing lts ["20","19","18","5","11","10"]. -/
theorem mergeTransactions_lex_example :
    (mergeTransactions
        [txWithLt "20", txWithLt "19", txWithLt "18", txWithLt "5"]
        [txWithLt "11", txWithLt "10"]
        ⟨"10", "11", .new⟩).map (fun t => t.id.lt) =
      ["20", "19", "18", "5", "11", "10"] := by decide

/-! ## foldSubscriptions (src/index.ts lines 385-406)

The source iterates over `ContractUpdatesSubscription` objects and compares
`item != except` by object reference. Reference identity is modelled by
tagging each flag pair with the integer id under which the manager stores
it (`SubEntry.oid`); distinct entries of one address's map are distinct
objects with distinct ids. The two result objects `before` and `after` are
modelled as a two-cell heap addressed by a Bool (`false` is the object
allocated for `before`, `true` the copy allocated for `after`): the source
line `const after = except != null ? Object.assign({}, before) : before`
makes `after` a fresh copy exactly when `except` is given, and otherwise
the same object as `before`. -/

/-- One entry of an address's subscription map: the JavaScript object
identity (its integer key in the map) plus its flag pair. -/
structure SubEntry where
  oid : Nat
  sub : ContractUpdatesSubscription
deriving DecidableEq, Repr

/-- The two-cell heap holding the `before` object (first component) and the
separately allocated `after` object (second component). -/
abbrev FoldHeap := ContractUpdatesSubscription × ContractUpdatesSubscription

def readCell (h : FoldHeap) : Bool → ContractUpdatesSubscription
  | true => h.2
  | false => h.1

def writeCell (h : FoldHeap) : Bool → ContractUpdatesSubscription → FoldHeap
  | true, c => (h.1, c)
  | false, c => (c, h.2)

/-- The `for (const item of subscriptions)` loop of foldSubscriptions:
break once `after` has both flags, or-accumulate into `before`, and into
`after` unless the item is the `except` object. -/
def foldLoop (except : Option SubEntry) (beforeAddr afterAddr : Bool) :
    List SubEntry → FoldHeap → FoldHeap
  | [], h => h
  | item :: rest, h =>
    if (readCell h afterAddr).transactions && (readCell h afterAddr).state then h
    else
      let b := readCell h beforeAddr
      let h1 := writeCell h beforeAddr
        ⟨b.state || item.sub.state, b.transactions || item.sub.transactions⟩
      let h2 :=
        if some item ≠ except then
          writeCell h1 afterAddr
            ⟨(readCell h1 afterAddr).state || item.sub.state,
             (readCell h1 afterAddr).transactions || item.sub.transactions⟩
        else h1
      foldLoop except beforeAddr afterAddr rest h2

/-- The pair of references foldSubscriptions returns, with the heap they
point into. -/
structure FoldResult where
  heap : FoldHeap
  beforeAddr : Bool
  afterAddr : Bool
deriving DecidableEq, Repr

def FoldResult.before (r : FoldResult) : ContractUpdatesSubscription :=
  readCell r.heap r.beforeAddr

def FoldResult.after (r : FoldResult) : ContractUpdatesSubscription :=
  readCell r.heap r.afterAddr

def foldSubscriptions (subscriptions : List SubEntry) (except : Option SubEntry) :
    FoldResult :=
  let afterAddr : Bool := except.isSome
  ⟨foldLoop except false afterAddr subscriptions (⟨false, false⟩, ⟨false, false⟩),
    false, afterAddr⟩

/-- OR of the state flags of a list of entries. -/
def orState (l : List SubEntry) : Bool := l.any (fun s => s.sub.state)

/-- OR of the transactions flags of a list of entries. -/
def orTransactions (l : List SubEntry) : Bool := l.any (fun s => s.sub.transactions)

theorem foldLoop_none (S : List SubEntry) : ∀ h : FoldHeap,
    foldLoop none false false S h =
      (⟨h.1.state || orState S, h.1.transactions || orTransactions S⟩, h.2) := by
  induction S with
  | nil =>
    rintro ⟨⟨bs, bt⟩, c⟩
    simp [foldLoop, orState, orTransactions]
  | cons item rest ih =>
    rintro ⟨⟨bs, bt⟩, c⟩
    rw [foldLoop]
    simp only [readCell, writeCell]
    by_cases hb : (bt && bs) = true
    · rw [if_pos hb]
      rw [Bool.and_eq_true] at hb
      obtain ⟨hbt, hbs⟩ := hb
      subst hbt
      subst hbs
      simp [orState, orTransactions]
    · rw [if_neg hb]
      simp only [ne_eq, Option.some_ne_none, not_false_eq_true, if_pos]
      rw [ih]
      simp [orState, orTransactions, Bool.or_assoc]

theorem foldLoop_some (e : SubEntry) (S : List SubEntry) : ∀ h : FoldHeap,
    (h.2.state = true → h.1.state = true) →
    (h.2.transactions = true → h.1.transactions = true) →
    foldLoop (some e) false true S h =
      (⟨h.1.state || orState S, h.1.transactions || orTransactions S⟩,
       ⟨h.2.state || orState (S.filter (fun i => i ≠ e)),
        h.2.transactions || orTransactions (S.filter (fun i => i ≠ e))⟩) := by
  induction S with
  | nil =>
    rintro ⟨⟨bs, bt⟩, ⟨cs, ct⟩⟩ _ _
    simp [foldLoop, orState, orTransactions]
  | cons item rest ih =>
    rintro ⟨⟨bs, bt⟩, ⟨cs, ct⟩⟩ hs ht
    simp only at hs ht
    rw [foldLoop]
    simp only [readCell, writeCell]
    by_cases hb : (ct && cs) = true
    · rw [if_pos hb]
      rw [Bool.and_eq_true] at hb
      obtain ⟨hbt, hbs⟩ := hb
      subst hbt
      subst hbs
      have h1 : bs = true := hs rfl
      have h2 : bt = true := ht rfl
      subst h1
      subst h2
      simp [orState, orTransactions]
    · rw [if_neg hb]
      by_cases hx : item = e
      · subst hx
        simp only [ne_eq, Option.some.injEq, not_true_eq_false, if_false]
        have hrec := ih (⟨bs || item.sub.state, bt || item.sub.transactions⟩, ⟨cs, ct⟩)
          (fun hh => by simp [hs hh]) (fun hh => by simp [ht hh])
        simp only at hrec
        rw [hrec]
        simp [orState, orTransactions, List.filter_cons, Bool.or_assoc]
      · have hxx : (some item ≠ some e) := by simp [hx]
        rw [if_pos hxx]
        have hrec := ih (⟨bs || item.sub.state, bt || item.sub.transactions⟩,
            ⟨cs || item.sub.state, ct || item.sub.transactions⟩)
          (fun hh => by
            simp only [Bool.or_eq_true] at hh ⊢
            rcases hh with hh | hh
            · exact Or.inl (hs hh)
            · exact Or.inr hh)
          (fun hh => by
            simp only [Bool.or_eq_true] at hh ⊢
            rcases hh with hh | hh
            · exact Or.inl (ht hh)
            · exact Or.inr hh)
        simp only at hrec
        rw [hrec]
        simp [orState, orTransactions, List.filter_cons, hx, Bool.or_assoc]

theorem foldSubscriptions_before_eq (S : List SubEntry) (except : Option SubEntry) :
    (foldSubscriptions S except).before = ⟨orState S, orTransactions S⟩ := by
  cases except with
  | none =>
    simp [foldSubscriptions, FoldResult.before, foldLoop_none, readCell]
  | some e =>
    have hrun := foldLoop_some e S (⟨false, false⟩, ⟨false, false⟩)
      (fun hh => hh) (fun hh => hh)
    simp only at hrun
    simp [foldSubscriptions, FoldResult.before, hrun, readCell]

theorem foldSubscriptions_after_some_eq (S : List SubEntry) (e : SubEntry) :
    (foldSubscriptions S (some e)).after =
      ⟨orState (S.filter (fun i => i ≠ e)), orTransactions (S.filter (fun i => i ≠ e))⟩ := by
  have hrun := foldLoop_some e S (⟨false, false⟩, ⟨false, false⟩)
    (fun hh => hh) (fun hh => hh)
  simp only at hrun
  simp [foldSubscriptions, FoldResult.after, hrun, readCell]

theorem foldSubscriptions_after_none_eq (S : List SubEntry) :
    (foldSubscriptions S none).after = ⟨orState S, orTransactions S⟩ := by
  simp [foldSubscriptions, FoldResult.after, foldLoop_none, readCell]

/-- C4: folding with an `except` entry that occurs in the list (object
identities, i.e. map keys, being distinct) yields an `after` whose flags
are the OR-reduction of the list with that occurrence removed, wherever it
sits and despite the early break once both flags are set. -/
theorem foldSubscriptions_after_excludes_except (S : List SubEntry) (e : SubEntry)
    (hids : (S.map SubEntry.oid).Nodup) (_he : e ∈ S) :
    (foldSubscriptions S (some e)).after =
      ⟨(S.erase e).any (fun s => s.sub.state),
       (S.erase e).any (fun s => s.sub.transactions)⟩ := by
  have hnd : S.Nodup := hids.of_map
  rw [foldSubscriptions_after_some_eq, hnd.erase_eq_filter e]
  have hf : S.filter (fun i => decide (i ≠ e)) = S.filter (fun x => x != e) := by
    apply List.filter_congr
    intro a _
    simp only [bne, decide_not]
    congr 1
  rw [hf]
  rfl

/-- Witness for C4 at a concrete input. -/
theorem foldSubscriptions_after_excludes_except_witness :
    (foldSubscriptions [⟨1, ⟨true, false⟩⟩, ⟨2, ⟨false, true⟩⟩] (some ⟨2, ⟨false, true⟩⟩)).after =
      ⟨(([⟨1, ⟨true, false⟩⟩, ⟨2, ⟨false, true⟩⟩] : List SubEntry).erase ⟨2, ⟨false, true⟩⟩).any
          (fun s => s.sub.state),
       (([⟨1, ⟨true, false⟩⟩, ⟨2, ⟨false, true⟩⟩] : List SubEntry).erase ⟨2, ⟨false, true⟩⟩).any
          (fun s => s.sub.transactions)⟩ :=
  foldSubscriptions_after_excludes_except _ _ (by decide) (by decide)

/-- C9: excluding an entry can only shrink the aggregate: each flag of
`after` is at most the corresponding flag of `before`. -/
theorem foldSubscriptions_after_le_before (S : List SubEntry) (except : Option SubEntry) :
    (foldSubscriptions S except).after.state ≤ (foldSubscriptions S except).before.state ∧
      (foldSubscriptions S except).after.transactions ≤
        (foldSubscriptions S except).before.transactions := by
  cases except with
  | none =>
    rw [foldSubscriptions_after_none_eq, foldSubscriptions_before_eq]
    exact ⟨le_refl _, le_refl _⟩
  | some e =>
    rw [foldSubscriptions_after_some_eq, foldSubscriptions_before_eq]
    constructor
    · simp only [orState, Bool.le_iff_imp, List.any_eq_true]
      rintro ⟨x, hx, hpx⟩
      exact ⟨x, List.mem_of_mem_filter hx, hpx⟩
    · simp only [orTransactions, Bool.le_iff_imp, List.any_eq_true]
      rintro ⟨x, hx, hpx⟩
      exact ⟨x, List.mem_of_mem_filter hx, hpx⟩

/-- C7 counterexample: with no `except`, the returned `after` is the very
same object as `before` (the source aliases them), refuting the claim of
independent storage at this concrete input. -/
theorem foldSubscriptions_no_except_shared_storage :
    (foldSubscriptions [⟨0, ⟨true, false⟩⟩] none).beforeAddr =
      (foldSubscriptions [⟨0, ⟨true, false⟩⟩] none).afterAddr := by decide

/-- C7 as amended: with no `except`, `after` carries the same flag values
as `before` because the two are the same object: the result holds a single
shared cell, so mutating one would mutate the other. -/
theorem foldSubscriptions_no_except_alias (S : List SubEntry) :
    (foldSubscriptions S none).after = (foldSubscriptions S none).before ∧
      (foldSubscriptions S none).afterAddr = (foldSubscriptions S none).beforeAddr := by
  refine ⟨?_, rfl⟩
  rw [foldSubscriptions_after_none_eq, foldSubscriptions_before_eq]

/-! ## ProviderRpcClient.subscribe (src/index.ts lines 241-383)

State model: `subscriptions` is the per-event listener map (event name to
the set of registered listener ids; the callback bodies carry no state and
are elided), `contractSubscriptions` the per-address flag map. String-keyed
objects are association lists in insertion order; the integer-keyed inner
maps are kept sorted ascending by id, the order `Object.values` enumerates
them in.

The embedded `subscribe` covers one call `subscribe(eventName, params)`
followed by the `await subscription.subscribe()` the source performs before
returning: `id` stands for the value `getUniqueId()` returned (modelled
from the spec: utils.ts is not among the staged sources; the spec calls it
a freshly allocated unique integer id), and `apiOk` is the outcome of the
underlying `this.api.subscribe` provider call, true for resolution and
false for rejection. The result pairs the manager state after the call with
the call's outcome (`Except.error` for a thrown error). -/

def knownGlobalEvents : List String :=
  ["disconnected", "networkChanged", "permissionsChanged", "loggedOut"]

def scopedEvents : List String := ["transactionsFound", "contractStateChanged"]

def lookupAssoc {α : Type} : List (String × α) → String → Option α
  | [], _ => none
  | p :: rest, k => if p.1 = k then some p.2 else lookupAssoc rest k

def setAssoc {α : Type} : List (String × α) → String → α → List (String × α)
  | [], k, v => [(k, v)]
  | p :: rest, k, v => if p.1 = k then (k, v) :: rest else p :: setAssoc rest k v

/-- Insert an id into a sorted id list (a numeric-keyed object's key set). -/
def insertId : List Nat → Nat → List Nat
  | [], id => [id]
  | i :: rest, id =>
    if id < i then id :: i :: rest
    else if id = i then i :: rest
    else i :: insertId rest id

/-- JavaScript `delete m[id]` on a listener id set. -/
def eraseId (l : List Nat) (id : Nat) : List Nat := l.filter (fun i => i ≠ id)

/-- Insert into a sorted integer-keyed association list. -/
def insertSorted : List (Nat × ContractUpdatesSubscription) → Nat →
    ContractUpdatesSubscription → List (Nat × ContractUpdatesSubscription)
  | [], id, v => [(id, v)]
  | p :: rest, id, v =>
    if id < p.1 then (id, v) :: p :: rest
    else if id = p.1 then (id, v) :: rest
    else p :: insertSorted rest id v

/-- JavaScript `delete m[id]` on an integer-keyed association list. -/
def eraseKey (l : List (Nat × ContractUpdatesSubscription)) (id : Nat) :
    List (Nat × ContractUpdatesSubscription) := l.filter (fun p => p.1 ≠ id)

structure ManagerState where
  subscriptions : List (String × List Nat)
  contractSubscriptions : List (String × List (Nat × ContractUpdatesSubscription))
deriving DecidableEq, Repr

/-- `_getEventSubscriptions`: returns the event's id set, creating an empty
entry in the per-event map when the event name has none yet. -/
def getEventSubscriptions (st : ManagerState) (eventName : String) :
    List Nat × ManagerState :=
  match lookupAssoc st.subscriptions eventName with
  | some ids => (ids, st)
  | none => ([], { st with subscriptions := setAssoc st.subscriptions eventName [] })

/-- Add a key to a string-keyed map with an empty value when absent,
leaving it untouched when present. -/
def ensureKey {α : Type} (m : List (String × α)) (k : String) (empty : α) :
    List (String × α) :=
  match lookupAssoc m k with
  | some _ => m
  | none => setAssoc m k empty

/-- `ProviderRpcClient.subscribe` followed by the initial
`subscription.subscribe()`. Returns the final manager state and the call
outcome. -/
def subscribe (st : ManagerState) (eventName : String) (params : Option String)
    (id : Nat) (apiOk : Bool) : ManagerState × Except String Unit :=
  let r := getEventSubscriptions st eventName
  let ids := r.1
  let st1 := r.2
  if eventName ∈ knownGlobalEvents then
    if id ∈ ids then (st1, .ok ())
    else ({ st1 with subscriptions := setAssoc st1.subscriptions eventName (insertId ids id) },
      .ok ())
  else if eventName ∈ scopedEvents then
    match params with
    | none => (st1, .error "TypeError: cannot read properties of undefined")
    | some address =>
      if id ∈ ids then (st1, .ok ())
      else
        let st2 := { st1 with
          subscriptions := setAssoc st1.subscriptions eventName (insertId ids id) }
        let inner := (lookupAssoc st2.contractSubscriptions address).getD []
        let flags : ContractUpdatesSubscription :=
          ⟨decide (eventName = "contractStateChanged"),
           decide (eventName = "transactionsFound")⟩
        let inner2 := insertSorted inner id flags
        let st3 := { st2 with
          contractSubscriptions := setAssoc st2.contractSubscriptions address inner2 }
        let fr := foldSubscriptions (inner2.map (fun p => ⟨p.1, p.2⟩)) (some ⟨id, flags⟩)
        if fr.before.transactions ≠ fr.after.transactions ∨ fr.before.state ≠ fr.after.state then
          if apiOk then (st3, .ok ())
          else
            ({ st3 with
                subscriptions := setAssoc st3.subscriptions eventName (eraseId (insertId ids id) id),
                contractSubscriptions := setAssoc st3.contractSubscriptions address (eraseKey inner2 id) },
              .error "api.subscribe failed")
        else (st3, .ok ())
  else
    (st1, .error ("Unknown event " ++ eventName))

theorem lookupAssoc_setAssoc_self {α : Type} (m : List (String × α)) (k : String) (v : α) :
    lookupAssoc (setAssoc m k v) k = some v := by
  induction m with
  | nil => simp [setAssoc, lookupAssoc]
  | cons p rest ih =>
    by_cases h : p.1 = k
    · simp [setAssoc, lookupAssoc, h]
    · simp [setAssoc, lookupAssoc, h, ih]

theorem setAssoc_setAssoc {α : Type} (m : List (String × α)) (k : String) (v w : α) :
    setAssoc (setAssoc m k v) k w = setAssoc m k w := by
  induction m with
  | nil => simp [setAssoc]
  | cons p rest ih =>
    by_cases h : p.1 = k
    · simp [setAssoc, h]
    · simp [setAssoc, h, ih]

theorem setAssoc_lookup_self {α : Type} (m : List (String × α)) (k : String) (v : α)
    (h : lookupAssoc m k = some v) : setAssoc m k v = m := by
  induction m with
  | nil => simp [lookupAssoc] at h
  | cons p rest ih =>
    obtain ⟨p1, p2⟩ := p
    by_cases hk : p1 = k
    · subst hk
      simp only [lookupAssoc, if_pos, Option.some.injEq] at h
      have hv : p2 = v := by simpa using h
      subst hv
      simp [setAssoc]
    · simp only [lookupAssoc, if_neg hk] at h
      simp [setAssoc, hk, ih h]

theorem filter_ne_of_not_mem_ids {l : List Nat} {id : Nat} (h : id ∉ l) :
    l.filter (fun i => i ≠ id) = l := by
  apply List.filter_eq_self.mpr
  intro a ha
  simp only [ne_eq, decide_eq_true_eq]
  exact fun hh => h (hh ▸ ha)

theorem eraseId_insertId (l : List Nat) (id : Nat) (h : id ∉ l) :
    eraseId (insertId l id) id = l := by
  induction l with
  | nil => simp [insertId, eraseId]
  | cons i rest ih =>
    have hne : i ≠ id := fun hh => h (by simp [hh])
    have hrest : id ∉ rest := fun hh => h (by simp [hh])
    rw [insertId]
    by_cases h1 : id < i
    · rw [if_pos h1]
      show (id :: i :: rest).filter (fun x => x ≠ id) = i :: rest
      rw [List.filter_cons, List.filter_cons]
      simp only [ne_eq]
      simp [hne]
      intro a ha hh
      exact hrest (hh ▸ ha)
    · rw [if_neg h1, if_neg (fun hh => hne hh.symm)]
      have hstep : eraseId (i :: insertId rest id) id = i :: eraseId (insertId rest id) id := by
        simp [eraseId, List.filter_cons, hne]
      rw [hstep, ih hrest]

theorem filter_ne_of_not_mem_keys {l : List (Nat × ContractUpdatesSubscription)} {id : Nat}
    (h : id ∉ l.map Prod.fst) : l.filter (fun p => p.1 ≠ id) = l := by
  apply List.filter_eq_self.mpr
  intro a ha
  simp only [ne_eq, decide_eq_true_eq]
  exact fun hh => h (hh ▸ List.mem_map_of_mem Prod.fst ha)

theorem eraseKey_insertSorted (l : List (Nat × ContractUpdatesSubscription)) (id : Nat)
    (v : ContractUpdatesSubscription) (h : id ∉ l.map Prod.fst) :
    eraseKey (insertSorted l id v) id = l := by
  induction l with
  | nil => simp [insertSorted, eraseKey]
  | cons p rest ih =>
    have hne : p.1 ≠ id := fun hh => h (by simp [hh.symm])
    have hrest : id ∉ rest.map Prod.fst := fun hh => h (by simp [hh])
    rw [insertSorted]
    by_cases h1 : id < p.1
    · rw [if_pos h1]
      show ((id, v) :: p :: rest).filter (fun q => q.1 ≠ id) = p :: rest
      rw [List.filter_cons, List.filter_cons]
      simp only [ne_eq]
      simp [hne]
      intro a b hab hh
      exact hrest (hh ▸ List.mem_map_of_mem Prod.fst hab)
    · rw [if_neg h1, if_neg (fun hh => hne hh.symm)]
      have hstep : eraseKey (p :: insertSorted rest id v) id =
          p :: eraseKey (insertSorted rest id v) id := by
        simp [eraseKey, List.filter_cons, hne]
      rw [hstep, ih hrest]


theorem getEventSubscriptions_eq (st : ManagerState) (eventName : String) :
    getEventSubscriptions st eventName =
      ((lookupAssoc st.subscriptions eventName).getD [],
       ⟨ensureKey st.subscriptions eventName [], st.contractSubscriptions⟩) := by
  cases hl : lookupAssoc st.subscriptions eventName with
  | some ids => simp [getEventSubscriptions, hl, ensureKey]
  | none => simp [getEventSubscriptions, hl, ensureKey]

theorem scoped_not_global : ∀ e ∈ scopedEvents, e ∉ knownGlobalEvents := by decide

/-- C6 as amended: subscribing to an event name outside the taxonomy fails
immediately with the unknown-event error, registers nothing and leaves the
per-address flag map untouched; the per-event listener map, however, gains
an empty entry for the unknown name when it had none (the lookup the source
performs before the event dispatch inserts it), so that map is not always
exactly as before. -/
theorem subscribe_unknown_event (st : ManagerState) (eventName : String)
    (params : Option String) (id : Nat) (apiOk : Bool)
    (h1 : eventName ∉ knownGlobalEvents) (h2 : eventName ∉ scopedEvents) :
    subscribe st eventName params id apiOk =
      (⟨ensureKey st.subscriptions eventName [], st.contractSubscriptions⟩,
       .error ("Unknown event " ++ eventName)) := by
  rw [subscribe.eq_def, getEventSubscriptions_eq]
  simp only [if_neg h1, if_neg h2]

/-- Witness for C6 at a concrete input. -/
theorem subscribe_unknown_event_witness :
    subscribe ⟨[], []⟩ "customEvent" none 7 true =
      (⟨ensureKey ([] : List (String × List Nat)) "customEvent" [], []⟩,
       .error ("Unknown event " ++ "customEvent")) :=
  subscribe_unknown_event ⟨[], []⟩ "customEvent" none 7 true (by decide) (by decide)

/-- C6 counterexample: at a fresh manager, the failed unknown-event call
leaves the per-event listener map different from what it was before the
call (it now holds an empty entry for the unknown name), refuting the
claim that the maps are exactly as they were. -/
theorem subscribe_unknown_event_mutates_event_map :
    (subscribe ⟨[], []⟩ "customEvent" none 7 true).2 = .error "Unknown event customEvent" ∧
      (subscribe ⟨[], []⟩ "customEvent" none 7 true).1 ≠ (⟨[], []⟩ : ManagerState) :=
  ⟨rfl, by decide⟩

/-- C1 as amended: when the underlying provider subscribe call issued
during an address-scoped subscribe rejects, the manager removes the id it
had just added from both the per-event listener map and the per-address
flag map and re-raises the failure; the previously existing contents of
both maps are untouched, but empty container entries created during the
attempt (the event-name key and the address key) persist, so the state is
equivalent to, yet not always structurally identical with, the state
before the call. -/
theorem subscribe_failure_rollback (st : ManagerState) (eventName address : String)
    (id : Nat)
    (hev : eventName ∈ scopedEvents)
    (hid1 : id ∉ (lookupAssoc st.subscriptions eventName).getD [])
    (hid2 : id ∉ ((lookupAssoc st.contractSubscriptions address).getD []).map Prod.fst)
    (hfail : (subscribe st eventName (some address) id false).2 =
      .error "api.subscribe failed") :
    (subscribe st eventName (some address) id false).1 =
      ⟨ensureKey st.subscriptions eventName [],
       ensureKey st.contractSubscriptions address []⟩ := by
  have h1 : eventName ∉ knownGlobalEvents := scoped_not_global eventName hev
  rw [subscribe.eq_def, getEventSubscriptions_eq] at hfail ⊢
  simp only [if_neg h1, if_pos hev] at hfail ⊢
  rw [if_neg hid1] at hfail ⊢
  set flags : ContractUpdatesSubscription :=
    ⟨decide (eventName = "contractStateChanged"),
     decide (eventName = "transactionsFound")⟩ with hflags
  set inner := (lookupAssoc st.contractSubscriptions address).getD [] with hinner
  set inner2 := insertSorted inner id flags with hinner2
  set fr := foldSubscriptions (inner2.map (fun p => ⟨p.1, p.2⟩)) (some ⟨id, flags⟩) with hfr
  by_cases hg : fr.before.transactions ≠ fr.after.transactions ∨
      fr.before.state ≠ fr.after.state
  · rw [if_pos hg] at hfail ⊢
    rw [if_neg (by simp : ¬ ((false : Bool) = true))] at hfail ⊢
    simp only
    have hsub : setAssoc (setAssoc (ensureKey st.subscriptions eventName []) eventName
        (insertId ((lookupAssoc st.subscriptions eventName).getD []) id)) eventName
        (eraseId (insertId ((lookupAssoc st.subscriptions eventName).getD []) id) id) =
        ensureKey st.subscriptions eventName [] := by
      rw [eraseId_insertId _ id hid1, setAssoc_setAssoc]
      cases hl : lookupAssoc st.subscriptions eventName with
      | some l =>
        have hek : ensureKey st.subscriptions eventName [] = st.subscriptions := by
          simp [ensureKey, hl]
        rw [hek]
        exact setAssoc_lookup_self _ _ _ hl
      | none =>
        have hek : ensureKey st.subscriptions eventName [] =
            setAssoc st.subscriptions eventName [] := by
          simp [ensureKey, hl]
        rw [hek]
        exact setAssoc_setAssoc _ _ _ _
    have hcon : setAssoc (setAssoc st.contractSubscriptions address inner2) address
        (eraseKey inner2 id) = ensureKey st.contractSubscriptions address [] := by
      rw [setAssoc_setAssoc, hinner2, eraseKey_insertSorted inner id flags hid2]
      cases hl : lookupAssoc st.contractSubscriptions address with
      | some l =>
        have hek : ensureKey st.contractSubscriptions address [] =
            st.contractSubscriptions := by
          simp [ensureKey, hl]
        rw [hek, hinner, hl]
        exact setAssoc_lookup_self _ _ _ hl
      | none =>
        have hek : ensureKey st.contractSubscriptions address [] =
            setAssoc st.contractSubscriptions address [] := by
          simp [ensureKey, hl]
        rw [hek, hinner, hl]
        rfl
    rw [hsub, hcon]
  · rw [if_neg hg] at hfail
    simp at hfail

/-- Witness for C1 at a concrete input: a fresh manager, a failing provider
call, and the resulting rollback to empty container entries. -/
theorem subscribe_failure_rollback_witness :
    (subscribe ⟨[], []⟩ "transactionsFound" (some "0:x") 5 false).1 =
      ⟨ensureKey ([] : List (String × List Nat)) "transactionsFound" [],
       ensureKey ([] : List (String × List (Nat × ContractUpdatesSubscription))) "0:x" []⟩ :=
  subscribe_failure_rollback ⟨[], []⟩ "transactionsFound" "0:x" 5
    (by decide) (by decide) (by decide) rfl

/-- C1 counterexample: after the failed attempt at a fresh manager the
state is not exactly what it was before the call: the failure is re-raised
and the id entries are gone, but the empty event-name and address keys
created during the attempt remain, so the state differs from the initial
one. -/
theorem subscribe_failure_leaves_empty_entries :
    (subscribe ⟨[], []⟩ "transactionsFound" (some "0:x") 5 false).2 =
      .error "api.subscribe failed" ∧
      (subscribe ⟨[], []⟩ "transactionsFound" (some "0:x") 5 false).1 ≠
        (⟨[], []⟩ : ManagerState) :=
  ⟨rfl, by decide⟩

/-! ## ABI token codec (src/models.ts lines 223-304)

`TokenValue` covers both the typed and the wire form of one ABI value: the
wire form simply never uses the `addr` constructor. JavaScript `undefined`,
which flows through `parseTokenValue` when a raw field is absent, is the
`undef` value. An `Address` object wraps whatever value the constructor
received (`.addr`); `toString()` returns the wrapped value unchanged
(modelled from the spec, the Address class living outside the staged
sources), which is what `serializeTokenValue` calls.

The parser walks values recursively; the fuel argument makes the recursion
structural. The source's `isArray` test (`rawType != param.type` after the
conditional slice) is equivalent to the `endsWith('[]')` test used here,
since slicing two characters off a string that ends in "[]" always changes
it. Property access on non-object non-undefined values yields `undefined`
as in JavaScript (special-cased names such as built-in properties are not
modelled); iterating a value that is neither an array nor a map raises a
TypeError; a map raw value is modelled by the `map` constructor, matching
the typed array-of-pairs representation of `TokenValue`. -/

inductive TokenValue where
  | undef
  | bool (b : Bool)
  | str (s : String)
  | num (n : Int)
  | addr (payload : TokenValue)
  | obj (fields : List (String × TokenValue))
  | arr (items : List TokenValue)
  | map (pairs : List (TokenValue × TokenValue))

structure AbiParam where
  name : String
  type : String
  components : Option (List AbiParam)

/-- The primitive values serialization passes through unchanged. -/
def isPrim : TokenValue → Bool
  | .bool _ => true
  | .str _ => true
  | .num _ => true
  | _ => false

mutual
/-- serializeTokenValue: Address becomes its wrapped string, arrays, maps
and plain objects are walked structurally, primitives pass through. -/
def serializeTokenValue : TokenValue → TokenValue
  | .addr payload => payload
  | .arr items => .arr (serializeList items)
  | .map pairs => .map (serializePairs pairs)
  | .obj fields => .obj (serializeFields fields)
  | .undef => .undef
  | .bool b => .bool b
  | .str s => .str s
  | .num n => .num n

def serializeList : List TokenValue → List TokenValue
  | [] => []
  | v :: rest => serializeTokenValue v :: serializeList rest

def serializePairs : List (TokenValue × TokenValue) → List (TokenValue × TokenValue)
  | [] => []
  | p :: rest => (serializeTokenValue p.1, serializeTokenValue p.2) :: serializePairs rest

def serializeFields : List (String × TokenValue) → List (String × TokenValue)
  | [] => []
  | f :: rest => (f.1, serializeTokenValue f.2) :: serializeFields rest
end

/-- serializeTokensObject: serialize every field of the object. -/
def serializeTokensObject (object : List (String × TokenValue)) :
    List (String × TokenValue) := serializeFields object

mutual
/-- No Address node anywhere in the value. -/
def noAddr : TokenValue → Bool
  | .addr _ => false
  | .arr items => noAddrList items
  | .map pairs => noAddrPairs pairs
  | .obj fields => noAddrFields fields
  | _ => true

def noAddrList : List TokenValue → Bool
  | [] => true
  | v :: rest => noAddr v && noAddrList rest

def noAddrPairs : List (TokenValue × TokenValue) → Bool
  | [] => true
  | p :: rest => noAddr p.1 && noAddr p.2 && noAddrPairs rest

def noAddrFields : List (String × TokenValue) → Bool
  | [] => true
  | f :: rest => noAddr f.2 && noAddrFields rest
end

/-- JavaScript property read `fields[name]` on an object's own fields. -/
def getField : List (String × TokenValue) → String → Option TokenValue
  | [], _ => none
  | f :: rest, n => if f.1 = n then some f.2 else getField rest n

/-- JavaScript property write `result[name] = v`: an existing key keeps its
position, a new key is appended. -/
def setField : List (String × TokenValue) → String → TokenValue → List (String × TokenValue)
  | [], n, v => [(n, v)]
  | f :: rest, n, v => if f.1 = n then (n, v) :: rest else f :: setField rest n v

/-- The error the embedding returns when fuel runs out; the source never
produces this string. -/
def outOfFuel : String := "embedding: out of fuel"

mutual
def parseTokenValue : Nat → AbiParam → TokenValue → Except String TokenValue
  | 0, _, _ => .error outOfFuel
  | fuel + 1, param, token =>
    if jsStartsWith param.type "map" = false then
      if jsEndsWith param.type "[]" then
        match token with
        | .arr items =>
          match parseList fuel ⟨param.name, jsDropRight param.type 2, param.components⟩ items with
          | .error e => .error e
          | .ok vs => .ok (.arr vs)
        | _ => .error "TypeError: token is not iterable"
      else if param.type = "tuple" then
        match param.components with
        | none => .ok (.obj [])
        | some comps =>
          match comps with
          | [] => .ok (.obj [])
          | c :: cs =>
            match token with
            | .undef => .error "TypeError: cannot read properties of undefined"
            | .obj fields =>
              match parseFields fuel (c :: cs) fields [] with
              | .error e => .error e
              | .ok fs => .ok (.obj fs)
            | _ =>
              match parseFields fuel (c :: cs) [] [] with
              | .error e => .error e
              | .ok fs => .ok (.obj fs)
      else if param.type = "address" then
        .ok (.addr token)
      else
        .ok token
    else
      match jsSplitComma param.type with
      | [] => .error "TypeError: cannot read properties of undefined"
      | [_] => .error "TypeError: cannot read properties of undefined"
      | p0 :: p1 :: _ =>
        match token with
        | .map pairs =>
          match parsePairs fuel ⟨"", jsDrop p0 4, none⟩ ⟨"", jsDropRight p1 1, none⟩ pairs with
          | .error e => .error e
          | .ok ps => .ok (.map ps)
        | _ => .error "TypeError: token is not iterable"

def parseList : Nat → AbiParam → List TokenValue → Except String (List TokenValue)
  | 0, _, _ => .error outOfFuel
  | fuel + 1, param, items =>
    match items with
    | [] => .ok []
    | item :: rest =>
      match parseTokenValue fuel param item with
      | .error e => .error e
      | .ok v =>
        match parseList fuel param rest with
        | .error e => .error e
        | .ok vs => .ok (v :: vs)

def parseFields : Nat → List AbiParam → List (String × TokenValue) →
    List (String × TokenValue) → Except String (List (String × TokenValue))
  | 0, _, _, _ => .error outOfFuel
  | fuel + 1, comps, fields, acc =>
    match comps with
    | [] => .ok acc
    | c :: rest =>
      match parseTokenValue fuel c ((getField fields c.name).getD .undef) with
      | .error e => .error e
      | .ok v => parseFields fuel rest fields (setField acc c.name v)

def parsePairs : Nat → AbiParam → AbiParam → List (TokenValue × TokenValue) →
    Except String (List (TokenValue × TokenValue))
  | 0, _, _, _ => .error outOfFuel
  | fuel + 1, keyParam, valueParam, pairs =>
    match pairs with
    | [] => .ok []
    | p :: rest =>
      match parseTokenValue fuel keyParam p.1 with
      | .error e => .error e
      | .ok k =>
        match parseTokenValue fuel valueParam p.2 with
        | .error e => .error e
        | .ok v =>
          match parsePairs fuel keyParam valueParam rest with
          | .error e => .error e
          | .ok vs => .ok ((k, v) :: vs)
end

/-- parseTokensObject: one parsed field per schema entry, reading the raw
object's field of the same name (undefined when absent). -/
def parseTokensObject (fuel : Nat) (params : List AbiParam)
    (object : List (String × TokenValue)) : Except String (List (String × TokenValue)) :=
  parseFields fuel params object []

/-- The scalar ABI kinds: every kind whose values parse by passing the raw
token through unchanged (not address, tuple, array or map). -/
def scalarKinds : List String :=
  ["uint8", "uint16", "uint32", "uint64", "uint128", "uint160", "uint256",
   "int8", "int16", "int32", "int64", "int128", "int160", "int256",
   "bool", "cell", "bytes", "gram", "time", "expire", "pubkey"]

theorem scalarKinds_facts : ∀ ty ∈ scalarKinds,
    jsStartsWith ty "map" = false ∧ jsEndsWith ty "[]" = false ∧
      ty ≠ "tuple" ∧ ty ≠ "address" := by decide

theorem serialize_isPrim (v : TokenValue) (h : isPrim v = true) :
    serializeTokenValue v = v := by
  cases v <;> simp_all [isPrim, serializeTokenValue]

theorem noAddrList_mem {items : List TokenValue} (h : noAddrList items = true) :
    ∀ x ∈ items, noAddr x = true := by
  induction items with
  | nil => simp
  | cons v rest ih =>
    rw [noAddrList, Bool.and_eq_true] at h
    intro x hx
    rcases List.mem_cons.mp hx with rfl | hx2
    · exact h.1
    · exact ih h.2 x hx2

theorem noAddrFields_mem {fields : List (String × TokenValue)}
    (h : noAddrFields fields = true) : ∀ f ∈ fields, noAddr f.2 = true := by
  induction fields with
  | nil => simp
  | cons f rest ih =>
    rw [noAddrFields, Bool.and_eq_true] at h
    intro x hx
    rcases List.mem_cons.mp hx with rfl | hx2
    · exact h.1
    · exact ih h.2 x hx2

theorem noAddrPairs_mem {pairs : List (TokenValue × TokenValue)}
    (h : noAddrPairs pairs = true) :
    ∀ p ∈ pairs, noAddr p.1 = true ∧ noAddr p.2 = true := by
  induction pairs with
  | nil => simp
  | cons p rest ih =>
    rw [noAddrPairs, Bool.and_eq_true, Bool.and_eq_true] at h
    intro x hx
    rcases List.mem_cons.mp hx with rfl | hx2
    · exact h.1
    · exact ih h.2 x hx2

/-- Schema conformance of a typed value, mirroring the shapes
parseTokenValue handles: a scalar kind with a primitive value, an address
kind with an Address wrapping a string, an array kind (a type ending in
"[]" that is not a map type) with elements conforming to the element
parameter, a tuple whose object fields align one-to-one with the declared
components (component names pairwise distinct, as JavaScript object keys
are unique), and a map type splitting at its comma into the key and value
kinds the parser slices out. -/
inductive Conform : AbiParam → TokenValue → Prop where
  | scalar (n ty : String) (c : Option (List AbiParam)) (v : TokenValue) :
      ty ∈ scalarKinds → isPrim v = true → Conform ⟨n, ty, c⟩ v
  | address (n : String) (c : Option (List AbiParam)) (s : String) :
      Conform ⟨n, "address", c⟩ (.addr (.str s))
  | array (n ty : String) (c : Option (List AbiParam)) (items : List TokenValue) :
      jsStartsWith ty "map" = false → jsEndsWith ty "[]" = true →
      (∀ x ∈ items, Conform ⟨n, jsDropRight ty 2, c⟩ x) →
      Conform ⟨n, ty, c⟩ (.arr items)
  | tuple (n : String) (comps : List AbiParam) (fields : List (String × TokenValue)) :
      fields.map Prod.fst = comps.map AbiParam.name →
      (comps.map AbiParam.name).Nodup →
      (∀ p ∈ comps.zip fields, Conform p.1 p.2.2) →
      Conform ⟨n, "tuple", some comps⟩ (.obj fields)
  | mapType (n ty p0 p1 : String) (c : Option (List AbiParam))
      (pairs : List (TokenValue × TokenValue)) :
      jsStartsWith ty "map" = true →
      jsSplitComma ty = [p0, p1] →
      (∀ pr ∈ pairs, Conform ⟨"", jsDrop p0 4, none⟩ pr.1) →
      (∀ pr ∈ pairs, Conform ⟨"", jsDropRight p1 1, none⟩ pr.2) →
      Conform ⟨n, ty, c⟩ (.map pairs)

theorem setField_append (acc : List (String × TokenValue)) (n : String) (v : TokenValue)
    (h : n ∉ acc.map Prod.fst) : setField acc n v = acc ++ [(n, v)] := by
  induction acc with
  | nil => rfl
  | cons f rest ih =>
    have hne : f.1 ≠ n := fun hh => h (by simp [hh])
    have hrest : n ∉ rest.map Prod.fst := fun hh => h (by simp [hh])
    simp [setField, hne, ih hrest]

theorem getField_serializeFields (fields : List (String × TokenValue)) (nm : String) :
    getField (serializeFields fields) nm = (getField fields nm).map serializeTokenValue := by
  induction fields with
  | nil => rfl
  | cons f rest ih =>
    by_cases h : f.1 = nm
    · simp [serializeFields, getField, h]
    · simp [serializeFields, getField, h, ih]

theorem zip_align_getField (comps : List AbiParam) (fields : List (String × TokenValue))
    (halign : fields.map Prod.fst = comps.map AbiParam.name)
    (hnd : (comps.map AbiParam.name).Nodup) :
    ∀ p ∈ comps.zip fields, p.2.1 = p.1.name ∧ getField fields p.1.name = some p.2.2 := by
  induction comps generalizing fields with
  | nil => simp
  | cons c crest ih =>
    cases fields with
    | nil => simp at halign
    | cons f frest =>
      simp only [List.map_cons, List.cons.injEq] at halign
      obtain ⟨hname, htail⟩ := halign
      simp only [List.map_cons, List.nodup_cons] at hnd
      obtain ⟨hnotin, hndtail⟩ := hnd
      intro p hp
      rw [List.zip_cons_cons] at hp
      rcases List.mem_cons.mp hp with rfl | hp2
      · exact ⟨hname, by simp [getField, hname]⟩
      · have hrec := ih frest htail hndtail p hp2
        refine ⟨hrec.1, ?_⟩
        have hpmem : p.1 ∈ crest := (List.of_mem_zip hp2).1
        have hne : f.1 ≠ p.1.name := by
          rw [hname]
          intro hh
          exact hnotin (by rw [hh]; exact List.mem_map_of_mem AbiParam.name hpmem)
        rw [getField, if_neg hne]
        exact hrec.2

theorem parseList_roundtrip (param : AbiParam) (items : List TokenValue)
    (hitems : ∀ x ∈ items, ∀ fuel,
      parseTokenValue fuel param (serializeTokenValue x) = .ok x ∨
      parseTokenValue fuel param (serializeTokenValue x) = .error outOfFuel) :
    ∀ fuel, parseList fuel param (serializeList items) = .ok items ∨
      parseList fuel param (serializeList items) = .error outOfFuel := by
  induction items with
  | nil =>
    intro fuel
    cases fuel with
    | zero => exact Or.inr rfl
    | succ f => exact Or.inl rfl
  | cons x rest ih =>
    intro fuel
    cases fuel with
    | zero => exact Or.inr rfl
    | succ f =>
      rcases hitems x (List.mem_cons_self x rest) f with hx | hx
      · rcases ih (fun y hy => hitems y (List.mem_cons_of_mem x hy)) f with hr | hr
        · exact Or.inl (by simp [serializeList, parseList, hx, hr])
        · exact Or.inr (by simp [serializeList, parseList, hx, hr])
      · exact Or.inr (by simp [serializeList, parseList, hx])

theorem parsePairs_roundtrip (keyParam valueParam : AbiParam)
    (pairs : List (TokenValue × TokenValue))
    (hkeys : ∀ pr ∈ pairs, ∀ fuel,
      parseTokenValue fuel keyParam (serializeTokenValue pr.1) = .ok pr.1 ∨
      parseTokenValue fuel keyParam (serializeTokenValue pr.1) = .error outOfFuel)
    (hvals : ∀ pr ∈ pairs, ∀ fuel,
      parseTokenValue fuel valueParam (serializeTokenValue pr.2) = .ok pr.2 ∨
      parseTokenValue fuel valueParam (serializeTokenValue pr.2) = .error outOfFuel) :
    ∀ fuel, parsePairs fuel keyParam valueParam (serializePairs pairs) = .ok pairs ∨
      parsePairs fuel keyParam valueParam (serializePairs pairs) = .error outOfFuel := by
  induction pairs with
  | nil =>
    intro fuel
    cases fuel with
    | zero => exact Or.inr rfl
    | succ f => exact Or.inl rfl
  | cons p rest ih =>
    intro fuel
    cases fuel with
    | zero => exact Or.inr rfl
    | succ f =>
      rcases hkeys p (List.mem_cons_self p rest) f with hk | hk
      · rcases hvals p (List.mem_cons_self p rest) f with hv | hv
        · rcases ih (fun q hq => hkeys q (List.mem_cons_of_mem p hq))
              (fun q hq => hvals q (List.mem_cons_of_mem p hq)) f with hr | hr
          · exact Or.inl (by simp [serializePairs, parsePairs, hk, hv, hr])
          · exact Or.inr (by simp [serializePairs, parsePairs, hk, hv, hr])
        · exact Or.inr (by simp [serializePairs, parsePairs, hk, hv])
      · exact Or.inr (by simp [serializePairs, parsePairs, hk])

theorem parseFields_roundtrip (raw : List (String × TokenValue)) :
    ∀ (comps : List AbiParam) (fields acc : List (String × TokenValue)),
    comps.length = fields.length →
    (∀ p ∈ comps.zip fields, p.2.1 = p.1.name ∧
      getField raw p.1.name = some (serializeTokenValue p.2.2) ∧
      (∀ f2, parseTokenValue f2 p.1 (serializeTokenValue p.2.2) = .ok p.2.2 ∨
        parseTokenValue f2 p.1 (serializeTokenValue p.2.2) = .error outOfFuel)) →
    (∀ c ∈ comps, c.name ∉ acc.map Prod.fst) →
    (comps.map AbiParam.name).Nodup →
    ∀ fuel, parseFields fuel comps raw acc = .ok (acc ++ fields) ∨
      parseFields fuel comps raw acc = .error outOfFuel := by
  intro comps
  induction comps with
  | nil =>
    intro fields acc hlen _ _ _ fuel
    cases fuel with
    | zero => exact Or.inr rfl
    | succ f =>
      have hf : fields = [] := List.length_eq_zero.mp hlen.symm
      subst hf
      exact Or.inl (by simp [parseFields])
  | cons c crest ih =>
    intro fields acc hlen hpt hfresh hnd fuel
    cases fields with
    | nil => simp at hlen
    | cons fd frest =>
      cases fuel with
      | zero => exact Or.inr rfl
      | succ f =>
        have hhead := hpt (c, fd) (by rw [List.zip_cons_cons]; exact List.mem_cons_self _ _)
        obtain ⟨hname, hget, hparse⟩ := hhead
        simp only [List.map_cons, List.nodup_cons] at hnd
        obtain ⟨hnotin, hndtail⟩ := hnd
        have hacc : setField acc c.name fd.2 = acc ++ [(c.name, fd.2)] :=
          setField_append acc c.name fd.2 (hfresh c (List.mem_cons_self c crest))
        have hfd : (c.name, fd.2) = fd := by
          rw [← hname]
        have hlen2 : crest.length = frest.length := by
          simpa using hlen
        have hpt2 : ∀ p ∈ crest.zip frest, p.2.1 = p.1.name ∧
            getField raw p.1.name = some (serializeTokenValue p.2.2) ∧
            (∀ f2, parseTokenValue f2 p.1 (serializeTokenValue p.2.2) = .ok p.2.2 ∨
              parseTokenValue f2 p.1 (serializeTokenValue p.2.2) = .error outOfFuel) := by
          intro p hp
          exact hpt p (by rw [List.zip_cons_cons]; exact List.mem_cons_of_mem _ hp)
        have hfresh2 : ∀ c2 ∈ crest, c2.name ∉ (acc ++ [(c.name, fd.2)]).map Prod.fst := by
          intro c2 hc2
          rw [List.map_append]
          intro hmem
          rcases List.mem_append.mp hmem with hmem | hmem
          · exact hfresh c2 (List.mem_cons_of_mem c hc2) hmem
          · simp only [List.map_cons, List.map_nil, List.mem_singleton] at hmem
            exact hnotin (hmem ▸ List.mem_map_of_mem AbiParam.name hc2)
        rcases hparse f with hx | hx
        · rcases ih frest (acc ++ [(c.name, fd.2)]) hlen2 hpt2 hfresh2 hndtail f with hr | hr
          · refine Or.inl ?_
            rw [parseFields, hget]
            simp only [Option.getD_some]
            rw [hx]
            dsimp only
            rw [hacc, hr, hfd]
            simp [List.append_assoc]
          · refine Or.inr ?_
            rw [parseFields, hget]
            simp only [Option.getD_some]
            rw [hx]
            dsimp only
            rw [hacc, hr]
        · refine Or.inr ?_
          rw [parseFields, hget]
          simp only [Option.getD_some]
          rw [hx]

theorem parseTokenValue_roundtrip (param : AbiParam) (token : TokenValue)
    (hc : Conform param token) (hna : noAddr token = true) :
    ∀ fuel, parseTokenValue fuel param (serializeTokenValue token) = .ok token ∨
      parseTokenValue fuel param (serializeTokenValue token) = .error outOfFuel := by
  induction hc with
  | scalar n ty c v hty hprim =>
    intro fuel
    cases fuel with
    | zero => exact Or.inr rfl
    | succ f =>
      obtain ⟨hm, ha, ht, had⟩ := scalarKinds_facts ty hty
      exact Or.inl (by simp [parseTokenValue, hm, ha, ht, had, serialize_isPrim v hprim])
  | address n c s =>
    exact absurd hna (by simp [noAddr])
  | array n ty c items hm ha helems ih =>
    intro fuel
    cases fuel with
    | zero => exact Or.inr rfl
    | succ f =>
      have hnai : ∀ x ∈ items, noAddr x = true :=
        noAddrList_mem (by simpa [noAddr] using hna)
      have hitems : ∀ x ∈ items, ∀ f2,
          parseTokenValue f2 ⟨n, jsDropRight ty 2, c⟩ (serializeTokenValue x) = .ok x ∨
          parseTokenValue f2 ⟨n, jsDropRight ty 2, c⟩ (serializeTokenValue x) =
            .error outOfFuel :=
        fun x hx => ih x hx (hnai x hx)
      rcases parseList_roundtrip ⟨n, jsDropRight ty 2, c⟩ items hitems f with hr | hr
      · exact Or.inl (by simp [parseTokenValue, serializeTokenValue, hm, ha, hr])
      · exact Or.inr (by simp [parseTokenValue, serializeTokenValue, hm, ha, hr])
  | tuple n comps fields halign hnd hconf ih =>
    intro fuel
    cases fuel with
    | zero => exact Or.inr rfl
    | succ f =>
      have hm : jsStartsWith "tuple" "map" = false := by decide
      have ha : jsEndsWith "tuple" "[]" = false := by decide
      cases comps with
      | nil =>
        have hf : fields = [] := by
          have : fields.map Prod.fst = [] := by simpa using halign
          simpa using this
        subst hf
        exact Or.inl (by simp [parseTokenValue, serializeTokenValue, serializeFields, hm, ha])
      | cons c cs =>
        have hlen : (c :: cs).length = fields.length := by
          have := congrArg List.length halign
          simpa using this.symm
        have hzip := zip_align_getField (c :: cs) fields halign hnd
        have hnaf : ∀ fd ∈ fields, noAddr fd.2 = true :=
          noAddrFields_mem (by simpa [noAddr] using hna)
        have hpt : ∀ p ∈ (c :: cs).zip fields, p.2.1 = p.1.name ∧
            getField (serializeFields fields) p.1.name = some (serializeTokenValue p.2.2) ∧
            (∀ f2, parseTokenValue f2 p.1 (serializeTokenValue p.2.2) = .ok p.2.2 ∨
              parseTokenValue f2 p.1 (serializeTokenValue p.2.2) = .error outOfFuel) := by
          intro p hp
          obtain ⟨h1, h2⟩ := hzip p hp
          refine ⟨h1, ?_, ?_⟩
          · rw [getField_serializeFields, h2]
            rfl
          · exact ih p hp (hnaf p.2 (List.of_mem_zip hp).2)
        rcases parseFields_roundtrip (serializeFields fields) (c :: cs) fields []
            hlen hpt (by simp) hnd f with hr | hr
        · exact Or.inl (by simp [parseTokenValue, serializeTokenValue, hm, ha, hr])
        · exact Or.inr (by simp [parseTokenValue, serializeTokenValue, hm, ha, hr])
  | mapType n ty p0 p1 c pairs hm hsplit hkeys hvals ihk ihv =>
    intro fuel
    cases fuel with
    | zero => exact Or.inr rfl
    | succ f =>
      have hnap := noAddrPairs_mem (by simpa [noAddr] using hna)
      have hk : ∀ pr ∈ pairs, ∀ f2,
          parseTokenValue f2 ⟨"", jsDrop p0 4, none⟩ (serializeTokenValue pr.1) = .ok pr.1 ∨
          parseTokenValue f2 ⟨"", jsDrop p0 4, none⟩ (serializeTokenValue pr.1) =
            .error outOfFuel :=
        fun pr hpr => ihk pr hpr (hnap pr hpr).1
      have hv : ∀ pr ∈ pairs, ∀ f2,
          parseTokenValue f2 ⟨"", jsDropRight p1 1, none⟩ (serializeTokenValue pr.2) =
            .ok pr.2 ∨
          parseTokenValue f2 ⟨"", jsDropRight p1 1, none⟩ (serializeTokenValue pr.2) =
            .error outOfFuel :=
        fun pr hpr => ihv pr hpr (hnap pr hpr).2
      rcases parsePairs_roundtrip ⟨"", jsDrop p0 4, none⟩ ⟨"", jsDropRight p1 1, none⟩
          pairs hk hv f with hr | hr
      · exact Or.inl (by simp [parseTokenValue, serializeTokenValue, hm, hsplit, hr])
      · exact Or.inr (by simp [parseTokenValue, serializeTokenValue, hm, hsplit, hr])

/-- C5: parsing the serialization of a schema-conformant token object with
no Address nodes returns the original object, for every fuel allowance
under which the recursion completes. -/
theorem parseTokensObject_roundtrip (params : List AbiParam)
    (object : List (String × TokenValue)) (fuel : Nat)
    (halign : object.map Prod.fst = params.map AbiParam.name)
    (hnd : (params.map AbiParam.name).Nodup)
    (hconf : ∀ p ∈ params.zip object, Conform p.1 p.2.2)
    (hna : ∀ fd ∈ object, noAddr fd.2 = true)
    (hcomplete : parseTokensObject fuel params (serializeTokensObject object) ≠
      .error outOfFuel) :
    parseTokensObject fuel params (serializeTokensObject object) = .ok object := by
  have hlen : params.length = object.length := by
    have := congrArg List.length halign
    simpa using this.symm
  have hzip := zip_align_getField params object halign hnd
  have hpt : ∀ p ∈ params.zip object, p.2.1 = p.1.name ∧
      getField (serializeFields object) p.1.name = some (serializeTokenValue p.2.2) ∧
      (∀ f2, parseTokenValue f2 p.1 (serializeTokenValue p.2.2) = .ok p.2.2 ∨
        parseTokenValue f2 p.1 (serializeTokenValue p.2.2) = .error outOfFuel) := by
    intro p hp
    obtain ⟨h1, h2⟩ := hzip p hp
    refine ⟨h1, ?_, ?_⟩
    · rw [getField_serializeFields, h2]
      rfl
    · exact parseTokenValue_roundtrip p.1 p.2.2 (hconf p hp)
        (hna p.2 (List.of_mem_zip hp).2)
  rcases parseFields_roundtrip (serializeFields object) params object []
      hlen hpt (by simp) hnd fuel with hr | hr
  · simpa [parseTokensObject, serializeTokensObject] using hr
  · exact absurd (by simpa [parseTokensObject, serializeTokensObject] using hr) hcomplete

/-- Concrete schema for the C5 witness. -/
def roundtripParams : List AbiParam :=
  [⟨"flag", "bool", none⟩, ⟨"items", "uint8[]", none⟩]

/-- Concrete token object for the C5 witness. -/
def roundtripObject : List (String × TokenValue) :=
  [("flag", .bool true), ("items", .arr [.str "1", .str "2"])]

/-- Witness for C5 at a concrete schema and value. -/
theorem parseTokensObject_roundtrip_witness :
    parseTokensObject 9 roundtripParams (serializeTokensObject roundtripObject) =
      .ok roundtripObject :=
  parseTokensObject_roundtrip roundtripParams roundtripObject 9 (by decide) (by decide)
    (by
      intro p hp
      simp only [roundtripParams, roundtripObject, List.zip_cons_cons, List.zip_nil_left,
        List.mem_cons, List.not_mem_nil, or_false] at hp
      rcases hp with rfl | rfl
      · exact Conform.scalar _ _ _ _ (by decide) rfl
      · refine Conform.array _ _ _ _ (by decide) (by decide) ?_
        intro x hx
        rcases List.mem_cons.mp hx with rfl | hx2
        · exact Conform.scalar _ _ _ _ (by decide) rfl
        · rcases List.mem_cons.mp hx2 with rfl | hx3
          · exact Conform.scalar _ _ _ _ (by decide) rfl
          · cases hx3)
    (by decide)
    (by
      intro h
      rw [show parseTokensObject 9 roundtripParams (serializeTokensObject roundtripObject) =
        Except.ok roundtripObject from rfl] at h
      exact Except.noConfusion h)

/-- C8 as amended: when a schema entry's name has no matching field in the
raw object, the parsed field depends on the declared type: scalar kinds
pass the undefined value through (the result object holds the field with
value undefined); an address entry yields an Address wrapping undefined,
not undefined; a tuple entry with no declared components yields an empty
object; a tuple entry with components, an array entry and a map entry all
throw a TypeError instead of yielding undefined. -/
theorem parseTokensObject_missing_field_by_kind (n : String) (c : Option (List AbiParam))
    (fuel : Nat) :
    (∀ ty ∈ scalarKinds,
      parseTokensObject (fuel + 1 + 1) [⟨n, ty, c⟩] [] = .ok [(n, .undef)]) ∧
    parseTokensObject (fuel + 1 + 1) [⟨n, "address", c⟩] [] = .ok [(n, .addr .undef)] ∧
    parseTokensObject (fuel + 1 + 1) [⟨n, "tuple", none⟩] [] = .ok [(n, .obj [])] ∧
    parseTokensObject (fuel + 1 + 1) [⟨n, "tuple", some []⟩] [] = .ok [(n, .obj [])] ∧
    (∀ c0 cs, parseTokensObject (fuel + 1 + 1) [⟨n, "tuple", some (c0 :: cs)⟩] [] =
      .error "TypeError: cannot read properties of undefined") ∧
    (∀ ty, jsStartsWith ty "map" = false → jsEndsWith ty "[]" = true →
      parseTokensObject (fuel + 1 + 1) [⟨n, ty, c⟩] [] =
        .error "TypeError: token is not iterable") ∧
    (∀ ty p0 p1 rest, jsStartsWith ty "map" = true →
      jsSplitComma ty = p0 :: p1 :: rest →
      parseTokensObject (fuel + 1 + 1) [⟨n, ty, c⟩] [] =
        .error "TypeError: token is not iterable") := by
  refine ⟨?_, ?_, ?_, ?_, ?_, ?_, ?_⟩
  · intro ty hty
    obtain ⟨hm, ha, ht, had⟩ := scalarKinds_facts ty hty
    simp [parseTokensObject, parseFields, parseTokenValue, getField, setField,
      hm, ha, ht, had]
  · have hm : jsStartsWith "address" "map" = false := by decide
    have ha : jsEndsWith "address" "[]" = false := by decide
    simp [parseTokensObject, parseFields, parseTokenValue, getField, setField, hm, ha]
  · have hm : jsStartsWith "tuple" "map" = false := by decide
    have ha : jsEndsWith "tuple" "[]" = false := by decide
    simp [parseTokensObject, parseFields, parseTokenValue, getField, setField, hm, ha]
  · have hm : jsStartsWith "tuple" "map" = false := by decide
    have ha : jsEndsWith "tuple" "[]" = false := by decide
    simp [parseTokensObject, parseFields, parseTokenValue, getField, setField, hm, ha]
  · intro c0 cs
    have hm : jsStartsWith "tuple" "map" = false := by decide
    have ha : jsEndsWith "tuple" "[]" = false := by decide
    simp [parseTokensObject, parseFields, parseTokenValue, getField, hm, ha]
  · intro ty hsw hew
    simp [parseTokensObject, parseFields, parseTokenValue, getField, hsw, hew]
  · intro ty p0 p1 rest h1 h2
    simp [parseTokensObject, parseFields, parseTokenValue, getField, h1, h2]

/-- C8 counterexample: a schema entry of array type whose field is missing
makes parseTokensObject throw a TypeError instead of yielding undefined. -/
theorem parseTokensObject_missing_array_field_fails :
    parseTokensObject 9 [⟨"x", "uint8[]", none⟩] [] =
      .error "TypeError: token is not iterable" ∧
    parseTokensObject 9 [⟨"x", "uint8[]", none⟩] [] ≠ .ok [("x", TokenValue.undef)] := by
  refine ⟨rfl, ?_⟩
  intro h
  rw [show parseTokensObject 9 [⟨"x", "uint8[]", none⟩] [] =
    Except.error "TypeError: token is not iterable" from rfl] at h
  exact Except.noConfusion h

theorem parseFields_result_keys :
    ∀ (comps : List AbiParam) (fuel : Nat) (raw acc result : List (String × TokenValue)),
    (comps.map AbiParam.name).Nodup →
    (∀ c ∈ comps, c.name ∉ acc.map Prod.fst) →
    parseFields fuel comps raw acc = .ok result →
    result.map Prod.fst = acc.map Prod.fst ++ comps.map AbiParam.name := by
  intro comps
  induction comps with
  | nil =>
    intro fuel raw acc result _ _ hok
    cases fuel with
    | zero => exact Except.noConfusion hok
    | succ f =>
      rw [parseFields] at hok
      obtain rfl : acc = result := by simpa using hok
      simp
  | cons c crest ih =>
    intro fuel raw acc result hnd hfresh hok
    cases fuel with
    | zero => exact Except.noConfusion hok
    | succ f =>
      rw [parseFields] at hok
      cases hp : parseTokenValue f c ((getField raw c.name).getD .undef) with
      | error e =>
        rw [hp] at hok
        exact Except.noConfusion hok
      | ok v =>
        rw [hp] at hok
        dsimp only at hok
        simp only [List.map_cons, List.nodup_cons] at hnd
        obtain ⟨hnotin, hndtail⟩ := hnd
        have hsf := setField_append acc c.name v (hfresh c (List.mem_cons_self c crest))
        rw [hsf] at hok
        have hfresh2 : ∀ c2 ∈ crest, c2.name ∉ (acc ++ [(c.name, v)]).map Prod.fst := by
          intro c2 hc2
          rw [List.map_append]
          intro hmem
          rcases List.mem_append.mp hmem with hmem | hmem
          · exact hfresh c2 (List.mem_cons_of_mem c hc2) hmem
          · simp only [List.map_cons, List.map_nil, List.mem_singleton] at hmem
            exact hnotin (hmem ▸ List.mem_map_of_mem AbiParam.name hc2)
        have hrec := ih f raw (acc ++ [(c.name, v)]) result hndtail hfresh2 hok
        rw [hrec]
        simp [List.map_append, List.append_assoc]

/-- C10 as amended: for a schema whose entry names are pairwise distinct,
whenever parseTokensObject returns an object at all, that object has
exactly one field per schema entry, keyed by the entry's name, in schema
order; raw fields matching no schema entry never appear. With duplicate
entry names, a later entry overwrites the earlier one's field in place, so
the result then has one field per distinct name instead. -/
theorem parseTokensObject_result_keys (fuel : Nat) (params : List AbiParam)
    (object result : List (String × TokenValue))
    (hnd : (params.map AbiParam.name).Nodup)
    (hok : parseTokensObject fuel params object = .ok result) :
    result.map Prod.fst = params.map AbiParam.name := by
  have := parseFields_result_keys params fuel object [] result hnd (by simp) hok
  simpa using this

/-- Witness for C10 at a concrete input: the raw object's extraneous field
does not appear in the result. -/
theorem parseTokensObject_result_keys_witness :
    ([("a", TokenValue.bool true)] : List (String × TokenValue)).map Prod.fst =
      ([⟨"a", "bool", none⟩] : List AbiParam).map AbiParam.name :=
  parseTokensObject_result_keys 9 [⟨"a", "bool", none⟩]
    [("a", .bool true), ("zzz", .num 1)] [("a", TokenValue.bool true)] (by decide) rfl

/-- C10 counterexample: with two schema entries of the same name the
result has a single field, not one field per schema entry. -/
theorem parseTokensObject_duplicate_name_collapses :
    parseTokensObject 9 [⟨"a", "uint8", none⟩, ⟨"a", "uint8", none⟩] [("a", .str "5")] =
      .ok [("a", TokenValue.str "5")] ∧
    ([("a", TokenValue.str "5")] : List (String × TokenValue)).length ≠
      ([⟨"a", "uint8", none⟩, ⟨"a", "uint8", none⟩] : List AbiParam).length :=
  ⟨rfl, by decide⟩
